import Mathlib

set_option maxHeartbeats 1000000

/-!
Verification of the "App" browser namespace (deferred initializer, dotted-path
get/set store, DOM-ready queue) against a shallow embedding of its source file.
The embedding follows the source IIFE: `_getOrSet`, the constructor `App`,
`App.prototype.ready/get/set/each`, and the dispatch switch in the constructor.
-/

/-- JavaScript values, as far as the store logic observes them. Functions are
opaque (`fnV name`). A plain object literal is `objV fields`: its own
properties in insertion order, backed by the members every object inherits
from `Object.prototype` (the `objectProtoFns` table below), which the
source's `in` operator also finds. The App instance is `instV own proto`:
`own` are its own properties and `proto` the fields of `App.prototype`; its
chain continues to `Object.prototype` as well. Two walks leave the modelled
fragment and are reported as `typeError` by the traversal: descending into a
property of a function value, and reading the inherited `__proto__` accessor
(whose value is the receiver's prototype object, not a tree node); no claim
exercises either. -/
inductive JSVal where
  | undef : JSVal
  | boolV : Bool → JSVal
  | numV : Int → JSVal
  | strV : String → JSVal
  | fnV : String → JSVal
  | objV : List (String × JSVal) → JSVal
  | instV : List (String × JSVal) → List (String × JSVal) → JSVal

/-- Own-property lookup on an object's field list (first binding wins). -/
def lookupField : List (String × JSVal) → String → Option JSVal
  | [], _ => none
  | (k, v) :: rest, key => if k = key then some v else lookupField rest key

/-- JavaScript property assignment on a field list: an existing own key keeps
its position and is overwritten, a new key is appended. -/
def setField : List (String × JSVal) → String → JSVal → List (String × JSVal)
  | [], key, v => [(key, v)]
  | (k, w) :: rest, key, v =>
    if k = key then (k, v) :: rest else (k, w) :: setField rest key v

/-- The own members of `Object.prototype` that every plain object — and the
App instance, at the end of its chain — inherits, as (key, function name)
pairs: `constructor` is the `Object` function, the rest are named after their
key (including the de-facto browser reflection functions). The source's
`key in object` finds all of them, so the walk treats these keys as existing:
it never creates them, and reading them yields the inherited function. The
inherited `__proto__` accessor is handled separately in the walk. -/
def objectProtoFns : List (String × String) :=
  [("constructor", "Object"),
   ("hasOwnProperty", "hasOwnProperty"),
   ("isPrototypeOf", "isPrototypeOf"),
   ("propertyIsEnumerable", "propertyIsEnumerable"),
   ("toLocaleString", "toLocaleString"),
   ("toString", "toString"),
   ("valueOf", "valueOf"),
   ("__defineGetter__", "__defineGetter__"),
   ("__defineSetter__", "__defineSetter__"),
   ("__lookupGetter__", "__lookupGetter__"),
   ("__lookupSetter__", "__lookupSetter__")]

/-- Association-list lookup for the `Object.prototype` table. -/
def lookupFn : List (String × String) → String → Option String
  | [], _ => none
  | (k, s) :: rest, key => if k = key then some s else lookupFn rest key

/-- A thrown JavaScript exception. The throws the embedded fragment can
produce on its own are the TypeError raised by `key in object` on a primitive
(or by reading a property of `undefined`); the traversal also uses this
error to mark the two walks outside the modelled fragment (function
properties, the `__proto__` accessor). -/
inductive JSErr where
  | typeError : JSErr

/-- The loop of `_getOrSet` (source lines 66-85), on an already-split segment
list. At each segment: `exists = key in object`, which searches the whole
prototype chain — own properties, then `App.prototype` for the instance,
then `Object.prototype` for every object. If the key is absent everywhere
and `create` is true it is created as an own property (`value` on the last
segment, `{}` otherwise); if the key exists the walk descends; otherwise
`value` is returned at once. A hit on an inherited `Object.prototype` member
never assigns (the create branch needs `exists === false`) and leaves the
receiver unchanged, since the member lives on `Object.prototype` outside the
receiver's tree; all its modelled members are functions, so traversing
further is the function boundary. Reading the inherited `__proto__` accessor
leaves the modelled fragment (the source yields the receiver's prototype
object there) and is reported as the model's error. The pair returned is
(result, updated root): the source mutates `object` in place and the update
is threaded functionally here. `in` on a primitive throws. -/
def getOrSetSegs : JSVal → List String → JSVal → Bool → Except JSErr (JSVal × JSVal)
  | object, [], _, _ => .ok (object, object)
  | object, key :: rest, value, create =>
    match object with
    | .objV fields =>
      match lookupField fields key with
      | some child =>
        match getOrSetSegs child rest value create with
        | .ok (res, child') => .ok (res, .objV (setField fields key child'))
        | .error e => .error e
      | none =>
        if key = "__proto__" then .error .typeError
        else
          match lookupFn objectProtoFns key with
          | some s =>
            match getOrSetSegs (.fnV s) rest value create with
            | .ok (res, _child') => .ok (res, .objV fields)
            | .error e => .error e
          | none =>
            if create then
              match rest with
              | [] => .ok (value, .objV (setField fields key value))
              | _ :: _ =>
                match getOrSetSegs (.objV []) rest value create with
                | .ok (res, child') => .ok (res, .objV (setField fields key child'))
                | .error e => .error e
            else
              .ok (value, .objV fields)
    | .instV own proto =>
      match lookupField own key with
      | some child =>
        match getOrSetSegs child rest value create with
        | .ok (res, child') => .ok (res, .instV (setField own key child') proto)
        | .error e => .error e
      | none =>
        match lookupField proto key with
        | some child =>
          match getOrSetSegs child rest value create with
          | .ok (res, child') => .ok (res, .instV own (setField proto key child'))
          | .error e => .error e
        | none =>
          if key = "__proto__" then .error .typeError
          else
            match lookupFn objectProtoFns key with
            | some s =>
              match getOrSetSegs (.fnV s) rest value create with
              | .ok (res, _child') => .ok (res, .instV own proto)
              | .error e => .error e
            | none =>
              if create then
                match rest with
                | [] => .ok (value, .instV (setField own key value) proto)
                | _ :: _ =>
                  match getOrSetSegs (.objV []) rest value create with
                  | .ok (res, child') => .ok (res, .instV (setField own key child') proto)
                  | .error e => .error e
              else
                .ok (value, .instV own proto)
    | _ => .error .typeError

/-- Outcome of the pure traversal induced by `_getOrSet`: the path resolves to
a value (possibly an inherited one — `in` searches the prototype chain), some
segment is absent everywhere along an object's chain, or the walk reaches a
non-object intermediate or an unmodelled accessor (`typeErr`, mirroring where
the traversal reports its error). Used only to state presence or absence of a
path in theorems. -/
inductive WalkOut where
  | found : JSVal → WalkOut
  | missing : WalkOut
  | typeErr : WalkOut

/-- Read-only traversal along a segment list, mirroring the `key in object`
tests of `_getOrSet` — own properties, `App.prototype` for the instance,
`Object.prototype` for every object — without creating or returning
defaults. -/
def probe : JSVal → List String → WalkOut
  | v, [] => .found v
  | v, key :: rest =>
    match v with
    | .objV fields =>
      match lookupField fields key with
      | some child => probe child rest
      | none =>
        if key = "__proto__" then .typeErr
        else
          match lookupFn objectProtoFns key with
          | some s => probe (.fnV s) rest
          | none => .missing
    | .instV own proto =>
      match lookupField own key with
      | some child => probe child rest
      | none =>
        match lookupField proto key with
        | some child => probe child rest
        | none =>
          if key = "__proto__" then .typeErr
          else
            match lookupFn objectProtoFns key with
            | some s => probe (.fnV s) rest
            | none => .missing
    | _ => .typeErr

/-- A key that collides with nothing inherited from `Object.prototype`: such
a key is genuinely created by the walk's create branch when absent. A key
naming an inherited member (for example `toString`) is never created —
`key in {}` is already true — so a write through a freshly created `{}` node
stops there instead of assigning. -/
def plainKey (key : String) : Bool :=
  !(key == "__proto__") && (lookupFn objectProtoFns key).isNone

/-- JavaScript `\w` (word character) of the source regex `\[(\w+)]`. -/
def isWordChar (c : Char) : Bool := c.isAlphanum || c = '_'

/-- Global replace of `\[(\w+)]` by `.$1` (source line 59), scanning left to
right as the regex engine does: at `[`, a maximal nonempty run of word
characters followed by `]` is rewritten to `.` plus the run; otherwise the
character is copied and the scan advances one position. The fuel argument is
always called with the length of the list, which each step strictly
decreases below, so the zero case is never reached. -/
def replaceBracketsAux : Nat → List Char → List Char
  | 0, cs => cs
  | _ + 1, [] => []
  | fuel + 1, c :: rest =>
    if c = '[' then
      let tok := rest.takeWhile isWordChar
      match rest.dropWhile isWordChar with
      | ']' :: tail =>
        if tok = [] then '[' :: replaceBracketsAux fuel rest
        else '.' :: (tok ++ replaceBracketsAux fuel tail)
      | _ => '[' :: replaceBracketsAux fuel rest
    else
      c :: replaceBracketsAux fuel rest

/-- Entry point of the bracket rewriting with sufficient fuel. -/
def replaceBrackets (cs : List Char) : List Char := replaceBracketsAux cs.length cs

/-- Strip a single leading dot (source line 61, regex `^\.`). -/
def stripLeadingDot : List Char → List Char
  | '.' :: rest => rest
  | cs => cs

/-- Accumulator form of JavaScript `split('.')`. -/
def splitOnDotAux : List Char → List Char → List String
  | [], acc => [String.mk acc.reverse]
  | c :: rest, acc =>
    if c = '.' then String.mk acc.reverse :: splitOnDotAux rest []
    else splitOnDotAux rest (c :: acc)

/-- JavaScript `split('.')`: the empty string yields `[""]`, adjacent dots
yield empty segments, exactly as in the source's `path.split('.')`. -/
def splitOnDot (cs : List Char) : List String := splitOnDotAux cs []

/-- String-path normalization of `_getOrSet` (source lines 56-64): rewrite
`[token]` to `.token`, strip one leading dot, split on `.`. -/
def normalizePath (path : String) : List String :=
  splitOnDot (stripLeadingDot (replaceBrackets path.data))

/-- JavaScript `toLowerCase` restricted to the ASCII range (the paths the
program manipulates); `Char.toLower` agrees with it there. -/
def strToLower (s : String) : String := String.mk (s.data.map Char.toLower)

/-- Source `_getOrSet` on a string path: normalize, then run the loop. (The
array-path form of the source is not needed by any claim.) -/
def _getOrSet (object : JSVal) (path : String) (value : JSVal) (create : Bool) :
    Except JSErr (JSVal × JSVal) :=
  getOrSetSegs object (normalizePath path) value create

/-- Source `App.prototype.get` (lines 209-211): `_getOrSet(this, path,
defaultValue)` — the walk starts at the App object itself and `create` is
absent, hence false. -/
def App.get (self : JSVal) (path : String) (defaultValue : JSVal) :
    Except JSErr (JSVal × JSVal) :=
  _getOrSet self path defaultValue false

/-- Source `App.prototype.set` (lines 216-218): `_getOrSet(this, path, value,
true)` — again on the App object itself. -/
def App.set (self : JSVal) (path : String) (value : JSVal) :
    Except JSErr (JSVal × JSVal) :=
  _getOrSet self path value true

/-- A callback handed to `ready`: either the internal callback the constructor
registers at lines 112-117 (which marks `self.domready = true`), or a consumer
callback, identified by a number since functions are opaque. -/
inductive Handler where
  | marker : Handler
  | user : Nat → Handler

/-- The argument list of one invocation of the callable namespace, classified
the way the constructor's `switch (typeof path)` classifies it: first argument
a string (with the second argument, `undef` when not supplied), first argument
a function (with the extra arguments forwarded to `ready`), or anything else
(no arguments, an array, a number, ...). -/
inductive CallArgs where
  | strCall : String → JSVal → CallArgs
  | fnCall : Nat → List JSVal → CallArgs
  | otherCall : CallArgs

/-- Mutable world of the embedded program: the own properties of the current
instance, the shared `App.prototype.data` object, the load-time value of
`App.prototype.domready` (`document.readyState !== 'loading'` evaluated once
at script load, line 154), the current document readiness, the pending
`setTimeout` callbacks and `DOMContentLoaded` listeners with their forwarded
arguments, and the clock read by `now()`. -/
structure St where
  instOwn : List (String × JSVal)
  protoData : JSVal
  domready0 : Bool
  docReady : Bool
  timeouts : List (Handler × List JSVal)
  listeners : List (Handler × List JSVal)
  clock : Int

/-- The host environment read at construction: the global placeholder
`window.app` (line 97) — whether it exists, its `time` stamp, and its `queue`
(`none` when the property is absent or not an array, in which case `each`'s
`isArray` test skips it). -/
structure Env where
  loaderPresent : Bool
  loaderTime : Int
  loaderQueue : Option (List CallArgs)

/-- The field list of `App.prototype` (source lines 141-582), in source order.
`debug` is `!!window.APP_DEBUG` with the flag unset, `ie` is the non-IE result
of the user-agent sniff, and `for` is `self.each` where `self` resolves to
`window.self` whose `each` is undefined. `data` is the shared store object and
`domready` the load-time readiness. -/
def protoFields (st : St) : List (String × JSVal) :=
  [("app", .strV "@VERSION"),
   ("constructor", .fnV "App"),
   ("debug", .boolV false),
   ("appready", .boolV false),
   ("domready", .boolV st.domready0),
   ("data", st.protoData),
   ("error", .fnV "error"),
   ("ready", .fnV "ready"),
   ("get", .fnV "get"),
   ("set", .fnV "set"),
   ("proxy", .fnV "proxy"),
   ("each", .fnV "each"),
   ("for", .undef),
   ("forEach", .fnV "forEach"),
   ("deepExtend", .fnV "deepExtend"),
   ("extend", .fnV "extend"),
   ("indexOf", .fnV "indexOf"),
   ("isArray", .fnV "isArray"),
   ("map", .fnV "map"),
   ("now", .fnV "now"),
   ("parseHtml", .fnV "parseHtml"),
   ("parseJson", .fnV "parseJson"),
   ("parseCamelCase", .fnV "parseCamelCase"),
   ("trim", .fnV "trim"),
   ("type", .fnV "type"),
   ("isUndefined", .fnV "isUndefined"),
   ("protect", .fnV "protect"),
   ("getUID", .fnV "getUID"),
   ("ie", .boolV false),
   ("noop", .fnV "noop"),
   ("falsy", .fnV "falsy"),
   ("truthy", .fnV "truthy")]

/-- The App instance as a JavaScript object: its own properties backed by
`App.prototype`. This is the `this` of the named `get`/`set` methods. -/
def mkInst (st : St) : JSVal := .instV st.instOwn (protoFields st)

/-- JavaScript `typeof value === 'undefined'`. -/
def isUndef : JSVal → Bool
  | .undef => true
  | _ => false

/-- Property read `self.appready`: own property first, otherwise the
prototype's `appready`, which is `false` (line 151). The constructor's guard
is `self.appready === false`, a strict comparison against `false`. -/
def appreadyOf (st : St) : JSVal :=
  match lookupField st.instOwn "appready" with
  | some v => v
  | none => .boolV false

/-- Property read `self.domready`: own property first (set by the marker
callback), otherwise the prototype's load-time value (line 154). -/
def selfDomready (st : St) : JSVal :=
  match lookupField st.instOwn "domready" with
  | some v => v
  | none => .boolV st.domready0

/-- Source `App.prototype.ready` (lines 179-204): capture the extra arguments;
if the document is already past 'loading', schedule `readyFn` — which defers
the handler through `setTimeout(..., 1)` — immediately; otherwise register a
`DOMContentLoaded` listener that will schedule it (the standard
`addEventListener` branch; the legacy `attachEvent` branch is for hosts
without `addEventListener` and is outside this model). The second component
lists the handler invocations performed during the call itself: the source
never applies the handler synchronously, so it is empty in both branches. -/
def ready (st : St) (h : Handler) (args : List JSVal) :
    St × List (Handler × List JSVal) :=
  if st.docReady then
    ({st with timeouts := st.timeouts ++ [(h, args)]}, [])
  else
    ({st with listeners := st.listeners ++ [(h, args)]}, [])

/-- Effect of one timeout callback firing: the constructor's marker sets
`self.domready = true` (line 113); a user handler only runs its own code,
observed here through the invocation trace. -/
def runOne (st : St) : Handler × List JSVal → St
  | (.marker, _) => {st with instOwn := setField st.instOwn "domready" (.boolV true)}
  | (.user _, _) => st

/-- The host timer queue draining: `setTimeout` callbacks of equal delay fire
in registration order, each exactly once, with the arguments `readyFn` closed
over (`handler.apply(undefined, thisArgs)`, line 186). Returns the state after
all fire and the list of handler invocations in order. Modelled from the
spec: the single-threaded host event loop that runs pending timers after the
current call stack unwinds. -/
def runTimeouts (st : St) : St × List (Handler × List JSVal) :=
  (st.timeouts.foldl runOne {st with timeouts := []}, st.timeouts)

/-- The one-shot `DOMContentLoaded` event: the document leaves 'loading' and
every registered listener runs, each calling `readyFn`, i.e. scheduling its
handler through `setTimeout`. Modelled from the spec: the host's one-shot
readiness signal. -/
def fireDomContentLoaded (st : St) : St :=
  {st with docReady := true, timeouts := st.timeouts ++ st.listeners, listeners := []}

/-- The dispatch switch of the constructor (lines 125-134), reached when
initialization is already done: a string performs `_getOrSet(self.data,
path.toLowerCase(), isSetter ? value : undefined, !!isSetter)` where
`isSetter` is `typeof value !== 'undefined'`; a function is passed to
`self.ready` (which returns undefined); anything else returns `self.domready`.
The final component is the dispatch trace (this one call). -/
def dispatchStep (st : St) (a : CallArgs) : Except JSErr (St × JSVal × List CallArgs) :=
  match a with
  | .strCall p v =>
    if isUndef v then
      match getOrSetSegs st.protoData (normalizePath (strToLower p)) .undef false with
      | .ok (res, d') => .ok ({st with protoData := d'}, res, [a])
      | .error e => .error e
    else
      match getOrSetSegs st.protoData (normalizePath (strToLower p)) v true with
      | .ok (res, d') => .ok ({st with protoData := d'}, res, [a])
      | .error e => .error e
  | .fnCall h hargs => .ok ((ready st (.user h) hargs).1, .undef, [a])
  | .otherCall => .ok (st, selfDomready st, [a])

/-- The replay loop `self.each(loader.queue, function (item) {
self.constructor.apply(self, item); })` (lines 120-122): each queued argument
list re-enters the constructor on the same instance, whose `appready` own
property is already `true` by then, so every replayed call takes the dispatch
branch — modelled directly as `dispatchStep` (the reduction of `constructBody`
to `dispatchStep` under an appready-true instance is proved below). A thrown
error aborts the loop, as in the source. -/
def replay : St → List CallArgs → Except JSErr (St × List CallArgs)
  | st, [] => .ok (st, [])
  | st, item :: rest =>
    match dispatchStep st item with
    | .ok (st1, _res, tr1) =>
      match replay st1 rest with
      | .ok (st2, tr2) => .ok (st2, tr1 ++ tr2)
      | .error e => .error e
    | .error e => .error e

/-- The constructor body `App` (source lines 96-135). If `self.appready ===
false`: record `self.time = self.now()`, set `self.appready = true`, log the
elapsed time against `loader.time` — which throws a TypeError when the global
placeholder is absent (`loader` is `undefined` on line 109) — register the
DOM-ready marker callback, replay the placeholder queue (skipped by `each`'s
`isArray` test when the queue is absent or not an array), and finally fall
through to the dispatch switch for this call's own arguments. Returns the
final state, the call's return value, and the trace of dispatched calls in
order. -/
def constructBody (env : Env) (st : St) (args : CallArgs) :
    Except JSErr (St × JSVal × List CallArgs) :=
  match appreadyOf st with
  | .boolV false =>
    let st1 : St := {st with instOwn := setField st.instOwn "time" (.numV st.clock)}
    let st2 : St := {st1 with instOwn := setField st1.instOwn "appready" (.boolV true)}
    if env.loaderPresent then
      let st3 := (ready st2 .marker []).1
      match env.loaderQueue with
      | some q =>
        match replay st3 q with
        | .ok (st4, tr) =>
          match dispatchStep st4 args with
          | .ok (st5, res, tr2) => .ok (st5, res, tr ++ tr2)
          | .error e => .error e
        | .error e => .error e
      | none => dispatchStep st3 args
    else
      .error .typeError
  | _ => dispatchStep st args

/-- A fresh pre-construction world: new instance with no own properties, empty
shared store, document already ready at load, no pending callbacks. -/
def stFresh : St := ⟨[], .objV [], true, true, [], [], 5⟩

/-- A world as it looks right after a first construction finished: the
instance carries `time` and `appready`, the rest still pristine. -/
def stReady : St := ⟨[("time", .numV 0), ("appready", .boolV true)], .objV [], true, true, [], [], 0⟩

/-- A queued store write, recorded by the placeholder before load. -/
def c2Call : CallArgs := .strCall "q" (.numV 9)

/-- Environment whose placeholder queue holds one recorded call. -/
def c2Env : Env := ⟨true, 0, some [c2Call]⟩

/-- The world left by a first construction under `c2Env`, with the instance
own-properties reset as `new App()` does for a second, fresh instance. -/
def c2AfterFirst : St :=
  match constructBody c2Env stFresh .otherCall with
  | .ok (s, _, _) => {s with instOwn := []}
  | .error _ => stFresh

/-- Environment with no global placeholder at all. -/
def c6Env : Env := ⟨false, 0, none⟩

/-- The post-construction world used as the C10 scenario, parameterized by
the load-time document readiness. -/
def c10St (dr : Bool) : St :=
  ⟨[("time", .numV 0), ("appready", .boolV true)], .objV [], dr, dr, [], [], 0⟩

/-- Environment for the replay-order scenario: a placeholder queue recording a
store write and a ready registration issued before the script loaded. -/
def c7Env : Env := ⟨true, 0, some [.strCall "a.b" (.numV 1), .fnCall 3 []]⟩

theorem lookupField_setField_self (fs : List (String × JSVal)) (k : String) (v : JSVal) :
    lookupField (setField fs k v) k = some v := by
  induction fs with
  | nil => simp [setField, lookupField]
  | cons p rest ih =>
    obtain ⟨pk, pv⟩ := p
    by_cases hk : pk = k
    · subst hk; simp [setField, lookupField]
    · simp [setField, lookupField, hk, ih]

theorem setField_setField_self (fs : List (String × JSVal)) (k : String) (v w : JSVal) :
    setField (setField fs k v) k w = setField fs k w := by
  induction fs with
  | nil => simp [setField]
  | cons p rest ih =>
    obtain ⟨pk, pv⟩ := p
    by_cases hk : pk = k
    · subst hk; simp [setField]
    · simp [setField, hk, ih]

theorem setField_lookup_self (fs : List (String × JSVal)) (k : String) (v : JSVal)
    (h : lookupField fs k = some v) : setField fs k v = fs := by
  induction fs with
  | nil => simp [lookupField] at h
  | cons p rest ih =>
    obtain ⟨pk, pv⟩ := p
    by_cases hk : pk = k
    · subst hk
      simp [lookupField] at h
      simp [setField, h]
    · simp [lookupField, hk] at h
      simp [setField, hk, ih h]

theorem probe_fnV_not_missing (s : String) (rest : List String) :
    probe (JSVal.fnV s) rest ≠ .missing := by
  cases rest with
  | nil => simp [probe]
  | cons r rs => simp [probe]

theorem probe_missing_get (segs : List String) : ∀ (root d : JSVal),
    probe root segs = .missing →
    getOrSetSegs root segs d false = .ok (d, root) := by
  induction segs with
  | nil => intro root d h; simp [probe] at h
  | cons k rest ih =>
    intro root d h
    match root with
    | .undef | .boolV _ | .numV _ | .strV _ | .fnV _ => simp [probe] at h
    | .objV fs =>
      cases hl : lookupField fs k with
      | none =>
        by_cases hpk : k = "__proto__"
        · subst hpk
          simp [probe, hl] at h
        · cases hf : lookupFn objectProtoFns k with
          | some s =>
            have hp : probe (JSVal.fnV s) rest = .missing := by
              simpa [probe, hl, hpk, hf] using h
            exact absurd hp (probe_fnV_not_missing s rest)
          | none => simp [getOrSetSegs, hl, hpk, hf]
      | some child =>
        have hp : probe child rest = .missing := by
          simpa [probe, hl] using h
        simp [getOrSetSegs, hl, ih child d hp, setField_lookup_self fs k child hl]
    | .instV own proto =>
      cases ho : lookupField own k with
      | some child =>
        have hp : probe child rest = .missing := by
          simpa [probe, ho] using h
        simp [getOrSetSegs, ho, ih child d hp, setField_lookup_self own k child ho]
      | none =>
        cases hq : lookupField proto k with
        | some child =>
          have hp : probe child rest = .missing := by
            simpa [probe, ho, hq] using h
          simp [getOrSetSegs, ho, hq, ih child d hp, setField_lookup_self proto k child hq]
        | none =>
          by_cases hpk : k = "__proto__"
          · subst hpk
            simp [probe, ho, hq] at h
          · cases hf : lookupFn objectProtoFns k with
            | some s =>
              have hp : probe (JSVal.fnV s) rest = .missing := by
                simpa [probe, ho, hq, hpk, hf] using h
              exact absurd hp (probe_fnV_not_missing s rest)
            | none => simp [getOrSetSegs, ho, hq, hpk, hf]

theorem probe_found_walk (segs : List String) : ∀ (root w v : JSVal) (c : Bool),
    probe root segs = .found w →
    getOrSetSegs root segs v c = .ok (w, root) := by
  induction segs with
  | nil =>
    intro root w v c h
    simp [probe] at h
    simp [getOrSetSegs, h]
  | cons k rest ih =>
    intro root w v c h
    match root with
    | .undef | .boolV _ | .numV _ | .strV _ | .fnV _ => simp [probe] at h
    | .objV fs =>
      cases hl : lookupField fs k with
      | none =>
        by_cases hpk : k = "__proto__"
        · subst hpk
          simp [probe, hl] at h
        · cases hf : lookupFn objectProtoFns k with
          | some s =>
            have hp : probe (JSVal.fnV s) rest = .found w := by
              simpa [probe, hl, hpk, hf] using h
            cases rest with
            | nil =>
              simp [probe] at hp
              subst hp
              simp [getOrSetSegs, hl, hpk, hf]
            | cons r rs => simp [probe] at hp
          | none => simp [probe, hl, hpk, hf] at h
      | some child =>
        have hp : probe child rest = .found w := by
          simpa [probe, hl] using h
        simp [getOrSetSegs, hl, ih child w v c hp, setField_lookup_self fs k child hl]
    | .instV own proto =>
      cases ho : lookupField own k with
      | some child =>
        have hp : probe child rest = .found w := by
          simpa [probe, ho] using h
        simp [getOrSetSegs, ho, ih child w v c hp, setField_lookup_self own k child ho]
      | none =>
        cases hq : lookupField proto k with
        | some child =>
          have hp : probe child rest = .found w := by
            simpa [probe, ho, hq] using h
          simp [getOrSetSegs, ho, hq, ih child w v c hp, setField_lookup_self proto k child hq]
        | none =>
          by_cases hpk : k = "__proto__"
          · subst hpk
            simp [probe, ho, hq] at h
          · cases hf : lookupFn objectProtoFns k with
            | some s =>
              have hp : probe (JSVal.fnV s) rest = .found w := by
                simpa [probe, ho, hq, hpk, hf] using h
              cases rest with
              | nil =>
                simp [probe] at hp
                subst hp
                simp [getOrSetSegs, ho, hq, hpk, hf]
              | cons r rs => simp [probe] at hp
            | none => simp [probe, ho, hq, hpk, hf] at h

theorem plainKey_split (k : String) (h : plainKey k = true) :
    ¬ (k = "__proto__") ∧ lookupFn objectProtoFns k = none := by
  have h2 := h
  simp only [plainKey, Bool.and_eq_true, Bool.not_eq_true', beq_eq_false_iff_ne,
    Option.isNone_iff_eq_none] at h2
  exact h2

theorem probe_missing_set (segs : List String) : ∀ (root v : JSVal),
    probe root segs = .missing → segs.all plainKey = true →
    ∃ root', getOrSetSegs root segs v true = .ok (v, root') ∧
      ∀ d, getOrSetSegs root' segs d false = .ok (v, root') := by
  induction segs with
  | nil => intro root v h hall; simp [probe] at h
  | cons k rest ih =>
    intro root v h hall
    have hsplit : plainKey k = true ∧ rest.all plainKey = true := by
      simpa [List.all_cons, Bool.and_eq_true] using hall
    obtain ⟨hk, hrest⟩ := hsplit
    obtain ⟨hpk, hkf⟩ := plainKey_split k hk
    match root with
    | .undef | .boolV _ | .numV _ | .strV _ | .fnV _ => simp [probe] at h
    | .objV fs =>
      cases hl : lookupField fs k with
      | some child =>
        have hp : probe child rest = .missing := by
          simpa [probe, hl] using h
        obtain ⟨c', hset, hget⟩ := ih child v hp hrest
        refine ⟨.objV (setField fs k c'), ?_, ?_⟩
        · simp [getOrSetSegs, hl, hset]
        · intro d
          simp [getOrSetSegs, lookupField_setField_self, hget d, setField_setField_self]
      | none =>
        cases rest with
        | nil =>
          refine ⟨.objV (setField fs k v), ?_, ?_⟩
          · simp [getOrSetSegs, hl, hpk, hkf]
          · intro d
            simp [getOrSetSegs, lookupField_setField_self, setField_setField_self]
        | cons r rs =>
          have hrk : plainKey r = true := by
            simp only [List.all_cons, Bool.and_eq_true] at hrest
            exact hrest.1
          obtain ⟨hrp, hrf⟩ := plainKey_split r hrk
          have hp : probe (JSVal.objV []) (r :: rs) = WalkOut.missing := by
            simp [probe, lookupField, hrp, hrf]
          obtain ⟨c', hset, hget⟩ := ih (JSVal.objV []) v hp hrest
          refine ⟨.objV (setField fs k c'), ?_, ?_⟩
          · rw [getOrSetSegs]
            simp [hl, hpk, hkf, hset]
          · intro d
            rw [getOrSetSegs]
            simp [lookupField_setField_self, hget d, setField_setField_self]
    | .instV own proto =>
      cases ho : lookupField own k with
      | some child =>
        have hp : probe child rest = .missing := by
          simpa [probe, ho] using h
        obtain ⟨c', hset, hget⟩ := ih child v hp hrest
        refine ⟨.instV (setField own k c') proto, ?_, ?_⟩
        · simp [getOrSetSegs, ho, hset]
        · intro d
          simp [getOrSetSegs, lookupField_setField_self, hget d, setField_setField_self]
      | none =>
        cases hq : lookupField proto k with
        | some child =>
          have hp : probe child rest = .missing := by
            simpa [probe, ho, hq] using h
          obtain ⟨c', hset, hget⟩ := ih child v hp hrest
          refine ⟨.instV own (setField proto k c'), ?_, ?_⟩
          · simp [getOrSetSegs, ho, hq, hset]
          · intro d
            simp [getOrSetSegs, ho, lookupField_setField_self, hget d, setField_setField_self]
        | none =>
          cases rest with
          | nil =>
            refine ⟨.instV (setField own k v) proto, ?_, ?_⟩
            · simp [getOrSetSegs, ho, hq, hpk, hkf]
            · intro d
              simp [getOrSetSegs, lookupField_setField_self, setField_setField_self]
          | cons r rs =>
            have hrk : plainKey r = true := by
              simp only [List.all_cons, Bool.and_eq_true] at hrest
              exact hrest.1
            obtain ⟨hrp, hrf⟩ := plainKey_split r hrk
            have hp : probe (JSVal.objV []) (r :: rs) = WalkOut.missing := by
              simp [probe, lookupField, hrp, hrf]
            obtain ⟨c', hset, hget⟩ := ih (JSVal.objV []) v hp hrest
            refine ⟨.instV (setField own k c') proto, ?_, ?_⟩
            · rw [getOrSetSegs]
              simp [ho, hq, hpk, hkf, hset]
            · intro d
              rw [getOrSetSegs]
              simp [lookupField_setField_self, hget d, setField_setField_self]

theorem dispatchStep_trace (st : St) (a : CallArgs) (st' : St) (res : JSVal)
    (tr : List CallArgs) (h : dispatchStep st a = .ok (st', res, tr)) : tr = [a] := by
  match a with
  | .strCall p v =>
    by_cases hu : isUndef v
    · simp only [dispatchStep, hu, if_true] at h
      cases hw : getOrSetSegs st.protoData (normalizePath (strToLower p)) .undef false with
      | ok r => obtain ⟨r1, r2⟩ := r; rw [hw] at h; cases h; rfl
      | error e => rw [hw] at h; cases h
    · simp only [dispatchStep, hu, if_false, Bool.false_eq_true] at h
      cases hw : getOrSetSegs st.protoData (normalizePath (strToLower p)) v true with
      | ok r => obtain ⟨r1, r2⟩ := r; rw [hw] at h; cases h; rfl
      | error e => rw [hw] at h; cases h
  | .fnCall n hargs => simp only [dispatchStep] at h; cases h; rfl
  | .otherCall => simp only [dispatchStep] at h; cases h; rfl

theorem replay_trace (q : List CallArgs) : ∀ (st st' : St) (tr : List CallArgs),
    replay st q = .ok (st', tr) → tr = q := by
  induction q with
  | nil => intro st st' tr h; simp [replay] at h; exact h.2
  | cons item rest ih =>
    intro st st' tr h
    rw [replay] at h
    split at h
    next st1 res1 tr1 hd =>
      split at h
      next st2 tr2 hr =>
        cases h
        rw [dispatchStep_trace _ _ _ _ _ hd, ih _ _ _ hr]
        rfl
      next e hr => cases h
    next e hd => cases h

theorem lookupField_protoFields_data (st : St) :
    lookupField (protoFields st) "data" = some st.protoData := by
  simp [protoFields, lookupField]

theorem setField_protoFields_data (st : St) (d' : JSVal) :
    setField (protoFields st) "data" d' = protoFields {st with protoData := d'} := by
  simp [protoFields, setField]

theorem dataBridge (st : St) (segs : List String) (v : JSVal) (c : Bool)
    (h : lookupField st.instOwn "data" = none) :
    getOrSetSegs (mkInst st) ("data" :: segs) v c =
      (getOrSetSegs st.protoData segs v c).map
        (fun r => (r.1, mkInst {st with protoData := r.2})) := by
  rw [mkInst]
  simp only [getOrSetSegs, h, lookupField_protoFields_data]
  cases hw : getOrSetSegs st.protoData segs v c with
  | ok r =>
    obtain ⟨res, d'⟩ := r
    simp [Except.map, setField_protoFields_data, mkInst]
  | error e => simp [Except.map]

/-- C1: for a path not already occupied — some segment of the normalized path
is absent along the full prototype chain — and none of whose segments names
an inherited `Object.prototype` member, `set(P, V)` succeeds, returns V, and
a subsequent `get(P)` returns V: the round-trip of the claim. Both
restrictions are forced by the source's `key in object`: when a value is
already found at P (own or inherited), `_getOrSet` only assigns on
`exists === false`, so `set` leaves the store unchanged and both calls return
the pre-existing value (see the counterexample; likewise `set('toString', 7)`
returns the inherited function and stores nothing), and a segment such as
`toString` is already present on a freshly created `{}` node, stopping a
deeper write. -/
theorem c1_set_get_roundtrip (root : JSVal) (P : String) (V d : JSVal) :
    (probe root (normalizePath P) = .missing →
      (normalizePath P).all plainKey = true →
      (∃ r, App.set root P V = .ok (V, r)) ∧
      ∀ root', App.set root P V = .ok (V, root') → App.get root' P d = .ok (V, root')) ∧
    (∀ w, probe root (normalizePath P) = .found w →
      App.set root P V = .ok (w, root) ∧ App.get root P d = .ok (w, root)) := by
  constructor
  · intro h hall
    obtain ⟨r', hset, hget⟩ := probe_missing_set (normalizePath P) root V h hall
    refine ⟨⟨r', by rw [App.set, _getOrSet]; exact hset⟩, ?_⟩
    intro root' h2
    rw [App.set, _getOrSet, hset] at h2
    injection h2 with h3
    injection h3 with h4 h5
    subst h5
    rw [App.get, _getOrSet]
    exact hget d
  · intro w hw
    constructor
    · rw [App.set, _getOrSet]
      exact probe_found_walk (normalizePath P) root w V true hw
    · rw [App.get, _getOrSet]
      exact probe_found_walk (normalizePath P) root w d false hw

/-- C1 witness: the spec scenario `set('user.name', 'Ada')` then
`get('user.name')` returns `'Ada'` on an empty store, through the round-trip
theorem with its hypotheses discharged by evaluation. -/
theorem c1_witness :
    App.get (JSVal.objV [("user", JSVal.objV [("name", JSVal.strV "Ada")])]) "user.name" JSVal.undef
      = .ok (JSVal.strV "Ada", JSVal.objV [("user", JSVal.objV [("name", JSVal.strV "Ada")])]) :=
  ((c1_set_get_roundtrip (JSVal.objV []) "user.name" (JSVal.strV "Ada") JSVal.undef).1 rfl rfl).2
    (JSVal.objV [("user", JSVal.objV [("name", JSVal.strV "Ada")])]) rfl

/-- C1 counterexample: with 1 already stored at `x`, `set('x', 2)` returns the
old value 1 and leaves the store unchanged, so the following `get('x')`
returns 1 and not the value 2 that was set — refuting the claim's round-trip
"including when some value was already stored at P before the set". -/
theorem c1_counterexample :
    App.set (JSVal.objV [("x", JSVal.numV 1)]) "x" (JSVal.numV 2)
        = .ok (JSVal.numV 1, JSVal.objV [("x", JSVal.numV 1)]) ∧
    App.get (JSVal.objV [("x", JSVal.numV 1)]) "x" JSVal.undef
        = .ok (JSVal.numV 1, JSVal.objV [("x", JSVal.numV 1)]) ∧
    JSVal.numV 1 ≠ JSVal.numV 2 :=
  ⟨rfl, rfl, by simp⟩

/-- C2: the initialization guard `self.appready === false` is per instance.
Whenever the instance's own `appready` is already `true` — as it is for every
re-entry of the constructor during queue replay — the constructor body is
exactly the dispatch switch: no queue replay, no ready-callback registration.
(A fresh `new App()` starts from a new instance whose `appready` falls back to
the prototype's `false`, so it initializes again: see the counterexample.) -/
theorem c2_init_guard (env : Env) (st : St) (a : CallArgs)
    (h : lookupField st.instOwn "appready" = some (JSVal.boolV true)) :
    constructBody env st a = dispatchStep st a := by
  simp [constructBody, appreadyOf, h]

/-- C2 witness: on a world whose instance has `appready = true`, a concrete
constructor call is plain dispatch. -/
theorem c2_witness : constructBody c2Env stReady .otherCall = dispatchStep stReady .otherCall :=
  c2_init_guard c2Env stReady .otherCall rfl

/-- C2 counterexample: after a first construction under a placeholder whose
queue holds one call, a second `new App()` (fresh instance, same prototype and
same untouched placeholder) replays the queued call a second time — its
dispatch trace is the queued call followed by the trigger, not the trigger
alone — and a second DOM-ready marker callback is registered, refuting "the
queue is replayed exactly once and never consulted again" and "the ready
callback is not duplicated". -/
theorem c2_counterexample :
    (constructBody c2Env c2AfterFirst .otherCall).map (fun r => (r.2.2, r.1.timeouts)) =
      .ok ([c2Call, .otherCall], [(.marker, []), (.marker, [])]) := rfl

/-- C3: `get(P, D)` returns D and leaves the store untouched whenever some
segment of the normalized path is absent along the whole prototype chain of
an object node (the read stops at the first absent segment, so no key is ever
created). Absence is judged as the source's `in` operator does: inherited
members such as `toString` are present, and a `get` of them returns the
inherited member rather than D. The claim's "never throws" fails when an
existing intermediate is a primitive, where `key in object` raises a
TypeError: see the counterexample. -/
theorem c3_get_missing_default (root : JSVal) (P : String) (d : JSVal)
    (h : probe root (normalizePath P) = .missing) :
    App.get root P d = .ok (d, root) := by
  rw [App.get, _getOrSet]
  exact probe_missing_get (normalizePath P) root d h

/-- C3 witness: the spec scenario `get('user.age', 0)` on a store holding only
`user.name` returns the default 0 and leaves the store unchanged. -/
theorem c3_witness :
    App.get (JSVal.objV [("user", JSVal.objV [("name", JSVal.strV "Ada")])]) "user.age" (JSVal.numV 0)
      = .ok (JSVal.numV 0, JSVal.objV [("user", JSVal.objV [("name", JSVal.strV "Ada")])]) :=
  c3_get_missing_default _ "user.age" _ rfl

/-- C3 counterexample: with the number 5 stored at `a`, the path `a.b` is not
present in the store, yet `get('a.b', 'dflt')` evaluates `'b' in 5` and throws
a TypeError instead of returning the default — refuting "returns D
immediately, never throws". -/
theorem c3_counterexample :
    App.get (JSVal.objV [("a", JSVal.numV 5)]) "a.b" (JSVal.strV "dflt") = .error .typeError := rfl

/-- C4: what the callable dispatcher actually does with a string: it selects
setter against getter by "second argument supplied and not undefined" exactly
as claimed, but it operates on the shared `data` object with the path
lower-cased — equivalently, it is the prototype walk at the segment path
`"data" :: normalize(lowercase p)` — and not on the App object that the named
`get`/`set` methods use, so it is not the same operation on the same store as
the named methods (see the counterexample). -/
theorem c4_callable_store (st : St) (p : String) (v : JSVal)
    (h : lookupField st.instOwn "data" = none) :
    (dispatchStep st (.strCall p v)).map (fun r => r.2.1) =
      (if isUndef v then
        getOrSetSegs (mkInst st) ("data" :: normalizePath (strToLower p)) JSVal.undef false
       else
        getOrSetSegs (mkInst st) ("data" :: normalizePath (strToLower p)) v true).map
        (fun r => r.1) := by
  by_cases hu : isUndef v
  · simp only [hu, if_true, dispatchStep, dataBridge st _ _ _ h]
    cases hw : getOrSetSegs st.protoData (normalizePath (strToLower p)) .undef false with
    | ok r => obtain ⟨res, d'⟩ := r; simp [Except.map]
    | error e => simp [Except.map]
  · simp only [hu, if_false, Bool.false_eq_true, dispatchStep, dataBridge st _ _ _ h]
    cases hw : getOrSetSegs st.protoData (normalizePath (strToLower p)) v true with
    | ok r => obtain ⟨res, d'⟩ := r; simp [Except.map]
    | error e => simp [Except.map]

/-- C4 witness: a concrete setter call `app('K', 3)` agrees with the walk of
the App object at `data.k`. -/
theorem c4_witness :
    (dispatchStep stReady (.strCall "K" (.numV 3))).map (fun r => r.2.1) =
      (if isUndef (.numV 3) then
        getOrSetSegs (mkInst stReady) ("data" :: normalizePath (strToLower "K")) JSVal.undef false
       else
        getOrSetSegs (mkInst stReady) ("data" :: normalizePath (strToLower "K")) (.numV 3) true).map
        (fun r => r.1) :=
  c4_callable_store stReady "K" (.numV 3) rfl

/-- C4 counterexample: `app('k', 1)` stores 1 under `data.k` and returns 1,
but the named `app.get('k', 'dflt')` — which resolves against the App object
itself, not against `data` — misses it and returns the default, refuting
"performs the same operation on the same store as the named get/set". -/
theorem c4_counterexample :
    dispatchStep stReady (.strCall "k" (.numV 1))
        = .ok ({stReady with protoData := .objV [("k", .numV 1)]}, .numV 1, [.strCall "k" (.numV 1)]) ∧
    App.get (mkInst {stReady with protoData := .objV [("k", .numV 1)]}) "k" (.strV "dflt")
        = .ok (.strV "dflt", mkInst {stReady with protoData := .objV [("k", .numV 1)]}) ∧
    JSVal.strV "dflt" ≠ JSVal.numV 1 :=
  ⟨rfl, rfl, by simp⟩

/-- C5: only the callable dispatcher is case-insensitive — it lower-cases the
path before the lookup, so two callable invocations whose paths agree up to
case address the same stored location (same resulting state and same returned
value). The named `get`/`set` use the path verbatim and are case-sensitive,
refuting the claim's "every store operation" (see the counterexample). -/
theorem c5_dispatcher_lowercases (st : St) (p q : String) (v : JSVal)
    (h : strToLower p = strToLower q) :
    (dispatchStep st (.strCall p v)).map (fun r => (r.1, r.2.1)) =
      (dispatchStep st (.strCall q v)).map (fun r => (r.1, r.2.1)) := by
  by_cases hu : isUndef v
  · simp only [dispatchStep, hu, if_true, h]
    cases hw : getOrSetSegs st.protoData (normalizePath (strToLower q)) .undef false with
    | ok r => obtain ⟨res, d'⟩ := r; simp [Except.map]
    | error e => simp [Except.map]
  · simp only [dispatchStep, hu, if_false, Bool.false_eq_true, h]
    cases hw : getOrSetSegs st.protoData (normalizePath (strToLower q)) v true with
    | ok r => obtain ⟨res, d'⟩ := r; simp [Except.map]
    | error e => simp [Except.map]

/-- C5 witness: the callable setter on "KEY" and on "key" produce the same
store and the same result. -/
theorem c5_witness :
    (dispatchStep stReady (.strCall "KEY" (.numV 2))).map (fun r => (r.1, r.2.1)) =
      (dispatchStep stReady (.strCall "key" (.numV 2))).map (fun r => (r.1, r.2.1)) :=
  c5_dispatcher_lowercases stReady "KEY" "key" (.numV 2) rfl

/-- C5 counterexample: the named `set('A', 1)` stores under the un-lowered key
"A", and the named `get('a', 'dflt')` then misses it and returns the default —
the named methods do not lower-case the path, refuting "every store operation
(get and set, whether invoked through the callable dispatcher or the named
methods) lower-cases P before lookup". -/
theorem c5_counterexample :
    App.set (mkInst stReady) "A" (JSVal.numV 1)
        = .ok (JSVal.numV 1,
               .instV [("time", .numV 0), ("appready", .boolV true), ("A", .numV 1)] (protoFields stReady)) ∧
    App.get (.instV [("time", .numV 0), ("appready", .boolV true), ("A", .numV 1)] (protoFields stReady))
        "a" (JSVal.strV "dflt")
        = .ok (JSVal.strV "dflt",
               .instV [("time", .numV 0), ("appready", .boolV true), ("A", .numV 1)] (protoFields stReady)) ∧
    JSVal.strV "dflt" ≠ JSVal.numV 1 :=
  ⟨rfl, rfl, by simp⟩

/-- C6: what first construction actually does about the placeholder: when the
placeholder object is absent, construction throws a TypeError (reading
`loader.time` of `undefined` on source line 109) instead of treating the queue
as empty; the queue is treated as empty — construction completes and dispatches
only the triggering call — only when the placeholder exists but carries no
array queue. -/
theorem c6_loader_contract (t : Int) (q : Option (List CallArgs)) (st : St) (a : CallArgs)
    (st' : St) (res : JSVal) (tr : List CallArgs)
    (h0 : appreadyOf st = .boolV false)
    (h : constructBody ⟨true, t, none⟩ st a = .ok (st', res, tr)) :
    constructBody ⟨false, t, q⟩ st a = .error .typeError ∧ tr = [a] := by
  constructor
  · simp [constructBody, h0]
  · simp only [constructBody, h0] at h
    exact dispatchStep_trace _ _ _ _ _ h

/-- C6 witness: concrete first construction with a present placeholder that
has no queue succeeds dispatching only the trigger, while the same call with
the placeholder removed throws. -/
theorem c6_witness :
    constructBody ⟨false, 0, none⟩ stFresh .otherCall = .error .typeError ∧
    ([CallArgs.otherCall] : List CallArgs) = [CallArgs.otherCall] :=
  c6_loader_contract 0 none stFresh .otherCall
    ⟨[("time", .numV 5), ("appready", .boolV true)], .objV [], true, true, [(.marker, [])], [], 5⟩
    (.boolV true) [.otherCall] rfl rfl

/-- C6 counterexample: first construction with the global placeholder absent
throws a TypeError rather than completing normally with an empty queue,
refuting "construction completes normally without throwing". -/
theorem c6_counterexample :
    constructBody c6Env stFresh .otherCall = .error .typeError := rfl

/-- C7: on a first construction (instance `appready` still false) with the
placeholder present and its queue holding the calls q, every successful
construction dispatches exactly the queued calls, in original insertion
order, each once, followed — last — by the call that triggered
initialization; all of it synchronously within the constructor call. -/
theorem c7_replay_in_order (env : Env) (st : St) (a : CallArgs) (q : List CallArgs)
    (st' : St) (res : JSVal) (tr : List CallArgs)
    (h0 : appreadyOf st = .boolV false)
    (hp : env.loaderPresent = true)
    (hq : env.loaderQueue = some q)
    (h : constructBody env st a = .ok (st', res, tr)) :
    tr = q ++ [a] := by
  simp only [constructBody, h0, hp, hq, if_true] at h
  split at h
  next st4 tr1 hr =>
    split at h
    next st5 res2 tr2 hd =>
      cases h
      rw [replay_trace _ _ _ _ hr, dispatchStep_trace _ _ _ _ _ hd]
    next e hd => cases h
  next e hr => cases h

/-- C7 witness: a queue of two recorded calls (a store write and a ready
registration) is replayed in order before the triggering getter call, in a
concrete successful construction. -/
theorem c7_witness :
    ([.strCall "a.b" (.numV 1), .fnCall 3 [], .strCall "z" .undef] : List CallArgs) =
      [.strCall "a.b" (.numV 1), .fnCall 3 []] ++ [.strCall "z" .undef] :=
  c7_replay_in_order c7Env stFresh (.strCall "z" .undef)
    [.strCall "a.b" (.numV 1), .fnCall 3 []]
    ⟨[("time", .numV 5), ("appready", .boolV true)],
     .objV [("a", .objV [("b", .numV 1)])], true, true,
     [(.marker, []), (.user 3, [])], [], 5⟩
    .undef
    [.strCall "a.b" (.numV 1), .fnCall 3 [], .strCall "z" .undef]
    rfl rfl rfl rfl

/-- C8: path normalization rewrites each `[token]` to `.token`, strips a
single leading dot and splits on `.` — so `a.b[0].c` and `a.b.0.c` normalize
to the same segment list and, for every store and default, `get` on the two
paths is the same operation. -/
theorem c8_normalization :
    normalizePath "a.b[0].c" = ["a", "b", "0", "c"] ∧
    normalizePath "a.b.0.c" = ["a", "b", "0", "c"] ∧
    normalizePath "[0].x" = ["0", "x"] ∧
    ∀ (root d : JSVal), App.get root "a.b[0].c" d = App.get root "a.b.0.c" d :=
  ⟨rfl, rfl, rfl, fun _ _ => rfl⟩

/-- C9: a ready registration never invokes the handler synchronously — the
call itself performs no handler invocation, in both the already-ready branch
(which only schedules a `setTimeout`) and the still-loading branch (which
only registers a `DOMContentLoaded` listener). Once the host event machinery
runs, the handler fires exactly once, with the extra registration arguments
forwarded; and the callable form with a function argument delegates to
`ready` and returns undefined. -/
theorem c9_ready_always_deferred (st : St) (n : Nat) (args : List JSVal) :
    (ready st (.user n) args).2 = [] ∧
    (st.docReady = true →
      (runTimeouts (ready st (.user n) args).1).2 = st.timeouts ++ [(.user n, args)]) ∧
    (st.docReady = false →
      (runTimeouts (fireDomContentLoaded (ready st (.user n) args).1)).2 =
        st.timeouts ++ st.listeners ++ [(.user n, args)]) ∧
    dispatchStep st (.fnCall n args) = .ok ((ready st (.user n) args).1, .undef, [.fnCall n args]) := by
  refine ⟨?_, ?_, ?_, rfl⟩
  · rw [ready]; split <;> rfl
  · intro hd; simp [ready, runTimeouts, hd]
  · intro hd; simp [ready, runTimeouts, fireDomContentLoaded, hd]

/-- C9 witness: registering after readiness on a concrete world defers the
handler — nothing fires during the call, and draining the timer queue fires
it exactly once with the forwarded argument. -/
theorem c9_witness :
    (ready stReady (.user 7) [JSVal.numV 1]).2 = [] ∧
    (runTimeouts (ready stReady (.user 7) [JSVal.numV 1]).1).2 =
      stReady.timeouts ++ [(.user 7, [JSVal.numV 1])] :=
  ⟨(c9_ready_always_deferred stReady 7 [JSVal.numV 1]).1,
   (c9_ready_always_deferred stReady 7 [JSVal.numV 1]).2.1 rfl⟩

/-- C10: the named `get` resolves against the App object itself with the `in`
operator, which sees inherited prototype members: on a freshly constructed
instance, for every default D and either load-time readiness, `get` of
`data`, `debug`, `domready`, `now` and `noop` returns the prototype member —
never the supplied default — although no `set` ever stored them. -/
theorem c10_prototype_members (d : JSVal) (dr : Bool) :
    App.get (mkInst (c10St dr)) "data" d = .ok (.objV [], mkInst (c10St dr)) ∧
    App.get (mkInst (c10St dr)) "debug" d = .ok (.boolV false, mkInst (c10St dr)) ∧
    App.get (mkInst (c10St dr)) "domready" d = .ok (.boolV dr, mkInst (c10St dr)) ∧
    App.get (mkInst (c10St dr)) "now" d = .ok (.fnV "now", mkInst (c10St dr)) ∧
    App.get (mkInst (c10St dr)) "noop" d = .ok (.fnV "noop", mkInst (c10St dr)) :=
  ⟨rfl, rfl, rfl, rfl, rfl⟩
